import Mathlib

/-!
Verification development for the 2FA-App repository.

The vault (`src/core/secure_storage.py`) stores one JSON record blob per
token identifier in an OS keyring, plus a reserved accounts-list key.
We embed the keyring content relevant to the vault as an association list
of identifier/record pairs together with the decoded accounts list, and
translate each storage function.  The PIN gate (`src/core/app_lock.py`),
the unlock loop (`src/main.py`) and the backup codec
(`src/ui/settings_frame.py`) are embedded further below, with the external
cryptographic primitives (PBKDF2, AES-GCM, the salt/nonce randomness)
taken as parameters, exactly as the spec treats them (external
capabilities with a stated contract).
-/

namespace TwoFA

/-- A stored record blob, as written to the keyring by `save_token_secret`
(a JSON object).  `none` in a field models the JSON field being absent;
`recovery_codes = some none` models the field being present with value
`null` (Python `None`), which `json.dumps` writes for a missing optional
argument. -/
structure StoredRecord where
  account_name : Option String
  issuer_name : Option String
  secret_key : Option String
  type : Option String
  recovery_codes : Option (Option String)
  deriving Repr, DecidableEq

/-- The dictionary returned by `get_token_secret`: read-side normalisation
defaults `type` to "TOTP" when the field is absent and `recovery_codes`
to "" when the field is absent (a stored `null` is returned as Python
`None`, modelled as `none`). -/
structure TokenInfo where
  identifier : String
  account_name : Option String
  issuer_name : Option String
  secret_key : Option String
  type : String
  recovery_codes : Option String
  deriving Repr, DecidableEq

/-- Keyring content owned by the vault: the per-identifier record blobs
and the decoded value of the reserved `__accounts_list__` key. -/
structure VaultState where
  store : List (String × StoredRecord)
  index : List String
  deriving Repr, DecidableEq

def emptyVault : VaultState := ⟨[], []⟩

/-- `keyring.get_password(SERVICE_NAME, id)` on a record key: first entry
with the matching key, if any. -/
def lookupStore : List (String × StoredRecord) → String → Option StoredRecord
  | [], _ => none
  | p :: rest, id => if p.1 = id then some p.2 else lookupStore rest id

/-- `keyring.set_password(SERVICE_NAME, id, blob)`: overwrite the value at
the key, creating the entry when absent. -/
def setStore : List (String × StoredRecord) → String → StoredRecord → List (String × StoredRecord)
  | [], id, d => [(id, d)]
  | p :: rest, id, d => if p.1 = id then (id, d) :: rest else p :: setStore rest id d

/-- `keyring.delete_password(SERVICE_NAME, id)`: remove the entry at the
key. -/
def eraseStore : List (String × StoredRecord) → String → List (String × StoredRecord)
  | [], _ => []
  | p :: rest, id => if p.1 = id then eraseStore rest id else p :: eraseStore rest id

/-- Body of `_add_account_to_list`: append the identifier when it is not
already listed. -/
def addAccount (l : List String) (id : String) : List String :=
  if id ∈ l then l else l ++ [id]

/-- Body of `_remove_account_from_list`: Python `list.remove` drops the
first occurrence; absent identifiers are left alone. -/
def removeAccount (l : List String) (id : String) : List String :=
  l.erase id

/-- Read-side normalisation performed by `get_token_secret` on a parsed
record blob. -/
def toInfo (identifier : String) (data : StoredRecord) : TokenInfo :=
  { identifier := identifier
    account_name := data.account_name
    issuer_name := data.issuer_name
    secret_key := data.secret_key
    type := data.type.getD "TOTP"
    recovery_codes :=
      match data.recovery_codes with
      | none => some ""
      | some v => v }

/-- `get_token_secret` with a reachable backend (source lines 67-88). -/
def get_token_secret (st : VaultState) (identifier : String) : Option TokenInfo :=
  (lookupStore st.store identifier).map (toInfo identifier)

/-- `get_all_token_identifiers` with a reachable backend (source lines
102-114): the decoded accounts list. -/
def get_all_token_identifiers (st : VaultState) : List String :=
  st.index

/-- Python `str.lower()` on ASCII strings, character by character. -/
def pyLower (s : String) : String := ⟨s.data.map Char.toLower⟩

/-- Python `str.upper()` on ASCII strings, character by character. -/
def pyUpper (s : String) : String := ⟨s.data.map Char.toUpper⟩

/-- Python `str.replace(" ", "_")`: the pattern is a single character,
so the replacement is a character map. -/
def replaceSpace (s : String) : String :=
  ⟨s.data.map (fun c => if c = ' ' then '_' else c)⟩

/-- The candidate identifier derived in `save_token_secret` when no
identifier is supplied (source line 39). -/
def mkCandidate (issuer_name account_name : String) : String :=
  replaceSpace (pyLower issuer_name) ++ "_" ++ replaceSpace (pyLower account_name)

/-- The suffixed candidate built by the collision loop
(`f"{current_identifier}_{count}"`, source line 45). -/
def mkSuffixed (cand : String) (count : Nat) : String :=
  cand ++ "_" ++ Nat.repr count

/-- The collision-avoidance loop of `save_token_secret` (source lines
41-47), with explicit fuel.  The Python loop terminates because the store
is finite; `resolveIdentifier` supplies fuel `store.length + 1`, which is
proved sufficient below (`resolveIdentifier_free`). -/
def findFreeId (st : VaultState) (cand : String) : Nat → String → Nat → String
  | 0, temp, _ => temp
  | fuel + 1, temp, count =>
    if (get_token_secret st temp).isSome then
      findFreeId st cand fuel (mkSuffixed cand count) (count + 1)
    else temp

def resolveIdentifier (st : VaultState) (cand : String) : String :=
  findFreeId st cand (st.store.length + 1) cand 1

/-- The record blob assembled by `save_token_secret` (source lines
49-55): all five fields are written, `recovery_codes` possibly as JSON
`null`. -/
def mkData (account_name issuer_name secret_key token_type : String)
    (recovery_codes : Option String) : StoredRecord :=
  { account_name := some account_name
    issuer_name := some issuer_name
    secret_key := some secret_key
    type := some token_type
    recovery_codes := some recovery_codes }

/-- `save_token_secret` (source lines 11-65) with a reachable backend.
`none` models the `ValueError` raised on an empty required field or an
unsupported token type; otherwise the record blob is written, the
identifier is added to the accounts list, and the identifier is
returned.  A supplied empty-string identifier is falsy in Python, so it
triggers fresh-identifier generation exactly like `None`. -/
def save_token_secret (st : VaultState) (account_name issuer_name secret_key : String)
    (token_type : String) (identifier : Option String) (recovery_codes : Option String) :
    Option (VaultState × String) :=
  if account_name = "" ∨ secret_key = "" ∨ issuer_name = "" then none
  else if ¬ (pyUpper token_type = "TOTP" ∨ pyUpper token_type = "HOTP") then none
  else
    let current_identifier :=
      match identifier with
      | some i => if i = "" then resolveIdentifier st (mkCandidate issuer_name account_name) else i
      | none => resolveIdentifier st (mkCandidate issuer_name account_name)
    let data := mkData account_name issuer_name secret_key token_type recovery_codes
    some ({ store := setStore st.store current_identifier data
            index := addAccount st.index current_identifier }, current_identifier)

/-- Outcome of the backing `keyring.delete_password` call, as
discriminated by the `except` clauses of `delete_token_secret`. -/
inductive DeleteOutcome
  | success
  | passwordDeleteError
  | noKeyringError
  | otherError
  deriving Repr, DecidableEq

/-- `delete_token_secret` (source lines 90-100) given the outcome of the
backing delete call: on success the record is removed and the identifier
is removed from the accounts list; on `PasswordDeleteError` only the list
is cleaned; on `NoKeyringError` nothing happens (`pass`); on any other
exception the handler only prints, leaving both untouched. -/
def delete_token_secret_outcome (st : VaultState) (identifier : String)
    (o : DeleteOutcome) : VaultState :=
  match o with
  | .success => { store := eraseStore st.store identifier
                  index := removeAccount st.index identifier }
  | .passwordDeleteError => { st with index := removeAccount st.index identifier }
  | .noKeyringError => st
  | .otherError => st

/-- `delete_token_secret` against a healthy backend: the backing delete
succeeds exactly when the record exists, and raises
`PasswordDeleteError` ("not found") otherwise. -/
def delete_token_secret (st : VaultState) (identifier : String) : VaultState :=
  delete_token_secret_outcome st identifier
    (if (lookupStore st.store identifier).isSome then .success else .passwordDeleteError)

/-- Python truthiness of an optional string: `None` and `""` are falsy. -/
def truthy : Option String → Bool
  | none => false
  | some s => s ≠ ""

/-- `get_all_token_data` (source lines 158-175): walk the accounts list,
fetch each record, and keep those whose account, secret and issuer are
all truthy. -/
def get_all_token_data (st : VaultState) : List TokenInfo :=
  (st.index.filterMap (get_token_secret st)).filter fun info =>
    truthy info.account_name && truthy info.secret_key && truthy info.issuer_name

/-- The storage backend as seen by a caller: reachable with content, or
unreachable (`keyring.errors.NoKeyringError`). -/
inductive Backend
  | ok (st : VaultState)
  | unavailable

/-- `get_token_secret` at the call boundary: the `NoKeyringError` handler
prints a diagnostic and returns `None` (source lines 83-85). -/
def get_token_secret_b : Backend → String → Option TokenInfo
  | .ok st, id => get_token_secret st id
  | .unavailable, _ => none

/-- `get_all_token_identifiers` at the call boundary: the
`NoKeyringError` handler prints a diagnostic and returns `[]` (source
lines 109-111). -/
def get_all_token_identifiers_b : Backend → List String
  | .ok st => get_all_token_identifiers st
  | .unavailable => []

/-- Reserved key holding the JSON-encoded accounts list (source line 7). -/
def ACCOUNTS_LIST_KEY : String := "__accounts_list__"

/-- Reserved key holding the auto-lock timeout (source line 8). -/
def AUTO_LOCK_SETTING_KEY : String := "__auto_lock_timeout_seconds__"

/-! ### Vault operation sequences

The index-consistency property quantifies over arbitrary sequences of
save and delete calls.  The embedding keeps the record blobs and the
accounts list in separate fields, which is faithful exactly when no
operation addresses the reserved keys; `opOk` states that side
condition. -/

inductive VaultOp
  | saveOp (account_name issuer_name secret_key token_type : String)
      (identifier : Option String) (recovery_codes : Option String)
  | deleteOp (identifier : String)
  deriving Repr, DecidableEq

def applyOp (st : VaultState) : VaultOp → VaultState
  | .saveOp a i s t ident rc =>
    match save_token_secret st a i s t ident rc with
    | some (st', _) => st'
    | none => st
  | .deleteOp id => delete_token_secret st id

def applyOps (st : VaultState) (ops : List VaultOp) : VaultState :=
  ops.foldl applyOp st

def identOk (id : String) : Bool :=
  id != ACCOUNTS_LIST_KEY && id != AUTO_LOCK_SETTING_KEY

def opOk : VaultOp → Bool
  | .saveOp a i _ _ ident _ =>
    identOk (mkCandidate i a) &&
      (match ident with
       | some id => (id == "") || identOk id
       | none => true)
  | .deleteOp id => identOk id

/-- Well-formedness of the vault: the accounts list has no duplicates and
lists exactly the identifiers whose records are retrievable. -/
def VaultWF (st : VaultState) : Prop :=
  st.index.Nodup ∧ ∀ id, id ∈ st.index ↔ (get_token_secret st id).isSome = true

/-! ### The PIN gate (`src/core/app_lock.py`)

PBKDF2 is an external capability; `verify_app_pin` and `set_app_pin`
are parametrised by the hash function `hashPin` (pin and salt to hex
digest).  The hex round-trip between storage and verification is the
identity and is collapsed. -/

/-- Keyring content of the `Python2FAApp_Lock` service: the values at the
salt and hash keys, `none` when absent. -/
structure PinState where
  salt : Option String
  hash : Option String
  deriving Repr, DecidableEq

def emptyPinState : PinState := ⟨none, none⟩

/-- `set_app_pin` (source lines 20-35): `none` models the `ValueError`
for a pin shorter than 4 characters; otherwise a fresh salt (parameter,
`os.urandom`) and the derived hash replace the stored credential. -/
def set_app_pin (hashPin : String → String → String) (pin salt : String) :
    Option PinState :=
  if pin.length < 4 then none
  else some { salt := some salt, hash := some (hashPin pin salt) }

/-- `verify_app_pin` (source lines 37-58): missing or empty stored salt
or hash means "PIN not set", hence false; otherwise the attempt's hash
is compared with the stored digest. -/
def verify_app_pin (hashPin : String → String → String) (st : PinState) (pin : String) :
    Bool :=
  match st.salt, st.hash with
  | some salt_hex, some stored_hash_hex =>
    if salt_hex = "" ∨ stored_hash_hex = "" then false
    else hashPin pin salt_hex == stored_hash_hex
  | _, _ => false

/-! ### The unlock protocol (`src/main.py`, lines 131-161) -/

def MAX_PIN_ATTEMPTS : Nat := 3

inductive UnlockResult
  | unlocked
  | cancelled
  | deniedMaxAttempts
  deriving Repr, DecidableEq

/-- The `while self.pin_attempts < MAX_PIN_ATTEMPTS` loop.  `entries i`
is the dialog result shown at attempt counter `i` (`none` = cancelled,
which exits the application on both the startup and the re-lock path).
`verify` is called only on a truthy pin; the second component counts the
`verify_app_pin` calls made.  The fuel is `MAX_PIN_ATTEMPTS - attempts`,
so the loop condition is mirrored exactly. -/
def promptLoop (verify : String → Bool) (entries : Nat → Option String) :
    Nat → Nat → Nat → UnlockResult × Nat
  | _, verifies, 0 => (.deniedMaxAttempts, verifies)
  | attempts, verifies, fuel + 1 =>
    match entries attempts with
    | some pin =>
      if pin ≠ "" then
        if verify pin then (.unlocked, verifies + 1)
        else promptLoop verify entries (attempts + 1) (verifies + 1) fuel
      else promptLoop verify entries (attempts + 1) verifies fuel
    | none => (.cancelled, verifies)

/-- `_prompt_for_pin_and_unlock`: the attempt counter is reset to 0 at
every invocation (`self.pin_attempts = 0`, source line 132). -/
def prompt_for_pin_and_unlock (verify : String → Bool)
    (entries : Nat → Option String) : UnlockResult × Nat :=
  promptLoop verify entries 0 0 MAX_PIN_ATTEMPTS

/-! ### The backup codec (`src/ui/settings_frame.py`)

PBKDF2 and AES-GCM are external capabilities: the codec is parametrised
by `kdf` (password and salt to key), `enc` and `dec`.  The JSON
serialisation of the token list is collapsed (it is the identity up to
encoding), so the plaintext type carries either a parsed token-entry
list or one of the malformed shapes the restore path rejects. -/

/-- One decrypted backup entry, a JSON object read with `.get`: `none`
models an absent (or null) field.  Restore only consults account,
issuer, secret and type. -/
structure BackupEntry where
  account_name : Option String
  issuer_name : Option String
  secret_key : Option String
  type : Option String
  recovery_codes : Option String
  deriving Repr, DecidableEq

/-- Decrypted plaintext: a list of record-shaped entries, some other
JSON value (`isinstance` check fails), or empty bytes. -/
inductive BackupPlain
  | tokens (entries : List BackupEntry)
  | notTokenList
  | emptyBytes
  deriving Repr, DecidableEq

/-- The JSON object serialised for each token by `_handle_backup_tokens`
(the full `get_all_token_data` dictionary). -/
def toEntry (info : TokenInfo) : BackupEntry :=
  { account_name := info.account_name
    issuer_name := info.issuer_name
    secret_key := info.secret_key
    type := some info.type
    recovery_codes := info.recovery_codes }

/-- The envelope written by `_handle_backup_tokens` (source lines
143-149); base64 of salt and nonce is collapsed, the ciphertext type is
abstract. -/
structure BackupEnvelope (C : Type) where
  version : String
  salt : String
  nonce : String
  ciphertext : C

/-- Core of `_handle_backup_tokens` (source lines 107-152): serialise
`get_all_token_data`, derive the key, encrypt, emit the envelope. -/
def export_backup {C : Type} (kdf : String → String → String)
    (enc : String → String → BackupPlain → C)
    (st : VaultState) (password salt nonce : String) : BackupEnvelope C :=
  { version := "1.0_encrypted"
    salt := salt
    nonce := nonce
    ciphertext := enc (kdf password salt) nonce (.tokens ((get_all_token_data st).map toEntry)) }

inductive RestoreOutcome
  | invalidFormat
  | cancelledPassword
  | decryptionFailed
  | emptyDecryption
  | notTokenList
  | noTokens
  | completed (restored failed : Nat)
  deriving Repr, DecidableEq

/-- The restore loop over decrypted entries (source lines 241-268): a
token with truthy account, issuer and secret is re-saved as a new token
(no identifier, no recovery codes, type defaulted to "TOTP" when
absent); a save that raises counts as failed, as does a skipped token. -/
def restoreStep (st : VaultState) (e : BackupEntry) : VaultState × Nat × Nat :=
  if truthy e.account_name && truthy e.issuer_name && truthy e.secret_key then
    match save_token_secret st (e.account_name.getD "") (e.issuer_name.getD "")
        (e.secret_key.getD "") (e.type.getD "TOTP") none none with
    | some (st', _) => (st', 1, 0)
    | none => (st, 0, 1)
  else (st, 0, 1)

def restoreEntries (st : VaultState) : List BackupEntry → VaultState × Nat × Nat
  | [] => (st, 0, 0)
  | e :: rest =>
    let step := restoreStep st e
    let rest' := restoreEntries step.1 rest
    (rest'.1, step.2.1 + rest'.2.1, step.2.2 + rest'.2.2)

/-- A backup entry the restore loop can re-save: the three required
fields are truthy and the (defaulted) type passes save validation. -/
def entryOk (e : BackupEntry) : Prop :=
  truthy e.account_name = true ∧ truthy e.issuer_name = true ∧
  truthy e.secret_key = true ∧
  (pyUpper (e.type.getD "TOTP") = "TOTP" ∨ pyUpper (e.type.getD "TOTP") = "HOTP")

instance (e : BackupEntry) : Decidable (entryOk e) := by
  unfold entryOk
  infer_instance

/-- Core of `_handle_restore_tokens` (source lines 170-271): envelope
shape check, password prompt, decrypt, shape checks on the plaintext,
then the additive restore loop (the confirmation dialog is answered
yes).  Every outcome other than `completed` leaves the vault untouched. -/
def restore_backup {C : Type} (kdf : String → String → String)
    (dec : String → String → C → Option BackupPlain)
    (st : VaultState) (envOpt : Option (BackupEnvelope C)) (password : String) :
    VaultState × RestoreOutcome :=
  match envOpt with
  | none => (st, .invalidFormat)
  | some env =>
    if password = "" then (st, .cancelledPassword)
    else
      match dec (kdf password env.salt) env.nonce env.ciphertext with
      | none => (st, .decryptionFailed)
      | some .emptyBytes => (st, .emptyDecryption)
      | some .notTokenList => (st, .notTokenList)
      | some (.tokens []) => (st, .noTokens)
      | some (.tokens (e :: rest)) =>
        let result := restoreEntries st (e :: rest)
        (result.1, .completed result.2.1 result.2.2)

/-! ### Concrete instances used by witnesses and counterexamples -/

/-- A trivial but functionally correct cipher instance: the ciphertext
type is the plaintext itself. -/
def idEnc (key nonce : String) (p : BackupPlain) : BackupPlain := p

def idDec (key nonce : String) (c : BackupPlain) : Option BackupPlain := some c

def idKdf (password salt : String) : String := password ++ "/" ++ salt

/-- An injective stand-in for PBKDF2-HMAC-SHA256 in PIN witnesses. -/
def hashPinEx (pin salt : String) : String := "h" ++ pin

/-- A vault holding one token that carries recovery codes. -/
def stRecovery : VaultState :=
  ⟨[("google_alice", mkData "alice" "Google" "SEC" "TOTP" (some "abc"))], ["google_alice"]⟩

/-- A vault holding one legacy record with no stored type field. -/
def stLegacy : VaultState :=
  ⟨[("legacy", ⟨some "a", some "b", some "c", none, none⟩)], ["legacy"]⟩

/-- Vault after saving alice at Google into an empty vault. -/
def stA : VaultState :=
  ⟨[("google_alice", mkData "alice" "Google" "SEC" "TOTP" none)], ["google_alice"]⟩

/-- Vault after saving alice at Google twice into an empty vault. -/
def stB : VaultState :=
  ⟨[("google_alice", mkData "alice" "Google" "SEC" "TOTP" none),
    ("google_alice_1", mkData "alice" "Google" "SEC2" "TOTP" none)],
   ["google_alice", "google_alice_1"]⟩

/-- Vault after saving bob with the explicit identifier "custom". -/
def stC : VaultState :=
  ⟨[("custom", mkData "bob" "Git Hub" "S" "HOTP" none)], ["custom"]⟩

/-- A one-entry backup whose token duplicates the account and issuer of
the record already in `stA`. -/
def entriesEx : List BackupEntry :=
  [⟨some "alice", some "Google", some "NEWSEC", some "TOTP", none⟩]

/-- A decrypted-form envelope carrying `entriesEx` (ciphertext type is
the plaintext itself, matching the `idEnc`/`idDec` instance). -/
def envEx : BackupEnvelope BackupPlain :=
  ⟨"1.0_encrypted", "s", "n", BackupPlain.tokens entriesEx⟩

/-- A sample operation sequence exercised by the index-consistency
witness. -/
def opsEx : List VaultOp :=
  [.saveOp "alice" "Google" "SEC" "TOTP" none none,
   .saveOp "alice" "Google" "SEC2" "TOTP" none none,
   .deleteOp "google_alice",
   .saveOp "bob" "Git Hub" "S" "HOTP" (some "custom") none,
   .deleteOp "missing"]

/-! ### Injectivity of the decimal printer

The collision loop builds candidates `cand ++ "_" ++ Nat.repr count`; to
show the loop always finds a fresh key within `store.length + 1` probes we
need those candidates to be pairwise distinct, hence that `Nat.repr` is
injective.  The library does not provide this, so we prove it via an
explicit decimal decoder. -/

/-- Decimal digit list of `n`, most significant digit first; agrees with
core's fuelled `Nat.toDigitsCore` printer. -/
def digs (n : Nat) : List Char :=
  if h : n < 10 then [Nat.digitChar n]
  else digs (n / 10) ++ [Nat.digitChar (n % 10)]
decreasing_by exact Nat.div_lt_self (by omega) (by omega)

def decChar (c : Char) : Nat := c.toNat - 48

def decList (l : List Char) : Nat := l.foldl (fun a c => 10 * a + decChar c) 0

/-- The sequence of candidate identifiers probed by `findFreeId`. -/
def candList (cand : String) : Nat → String → Nat → List String
  | 0, _, _ => []
  | fuel + 1, temp, count => temp :: candList cand fuel (mkSuffixed cand count) (count + 1)

theorem digs_of_lt {n : Nat} (h : n < 10) : digs n = [Nat.digitChar n] := by
  rw [digs, dif_pos h]

theorem digs_of_ge {n : Nat} (h : ¬ n < 10) :
    digs n = digs (n / 10) ++ [Nat.digitChar (n % 10)] := by
  rw [digs, dif_neg h]

theorem toDigitsCore_eq_digs :
    ∀ (fuel n : Nat) (ds : List Char), n < fuel →
      Nat.toDigitsCore 10 fuel n ds = digs n ++ ds := by
  intro fuel
  induction fuel with
  | zero => intro n ds h; omega
  | succ fuel ih =>
    intro n ds h
    by_cases h10 : n / 10 = 0
    · have hn : n < 10 := by omega
      simp [Nat.toDigitsCore, h10, digs_of_lt hn, Nat.mod_eq_of_lt hn]
    · have hn : ¬ n < 10 := by omega
      have hfuel : n / 10 < fuel := by
        have hlt : n / 10 < n := Nat.div_lt_self (by omega) (by decide)
        omega
      simp only [Nat.toDigitsCore, h10, if_false]
      rw [ih (n / 10) (Nat.digitChar (n % 10) :: ds) hfuel, digs_of_ge hn]
      simp

theorem decChar_digitChar {d : Nat} (h : d < 10) : decChar (Nat.digitChar d) = d := by
  interval_cases d <;> rfl

theorem foldl_digs (n : Nat) :
    ∀ a : Nat, (digs n).foldl (fun a c => 10 * a + decChar c) a =
      a * 10 ^ (digs n).length + n := by
  induction n using Nat.strong_induction_on with
  | _ n ih =>
    intro a
    by_cases h : n < 10
    · simp [digs_of_lt h, decChar_digitChar h]
      omega
    · have hdiv : n / 10 < n := Nat.div_lt_self (by omega) (by omega)
      rw [digs_of_ge h, List.foldl_append, ih (n / 10) hdiv a]
      have hmod : n % 10 < 10 := Nat.mod_lt _ (by omega)
      simp [decChar_digitChar hmod, pow_succ]
      have hax : 10 * (a * 10 ^ (digs (n / 10)).length) =
          a * (10 ^ (digs (n / 10)).length * 10) := by ring
      have hdm := Nat.div_add_mod n 10
      omega

theorem decList_digs (n : Nat) : decList (digs n) = n := by
  have := foldl_digs n 0
  simpa [decList] using this

theorem digs_injective {m n : Nat} (h : digs m = digs n) : m = n := by
  have := congrArg decList h
  rwa [decList_digs, decList_digs] at this

theorem nat_repr_injective {m n : Nat} (h : Nat.repr m = Nat.repr n) : m = n := by
  apply digs_injective
  have hm : Nat.toDigits 10 m = digs m := by
    rw [Nat.toDigits, toDigitsCore_eq_digs (m + 1) m [] (Nat.lt_succ_self m), List.append_nil]
  have hn : Nat.toDigits 10 n = digs n := by
    rw [Nat.toDigits, toDigitsCore_eq_digs (n + 1) n [] (Nat.lt_succ_self n), List.append_nil]
  have hdata := congrArg String.data h
  simpa [Nat.repr, hm, hn, List.asString] using hdata

/-! ### Association-store lemmas -/

theorem lookup_setStore_self (l : List (String × StoredRecord)) (id : String) (d : StoredRecord) :
    lookupStore (setStore l id d) id = some d := by
  induction l with
  | nil => simp [setStore, lookupStore]
  | cons p rest ih =>
    by_cases h : p.1 = id
    · simp [setStore, h, lookupStore]
    · simp [setStore, h, lookupStore, ih]

theorem lookup_setStore_ne {x id : String} (h : x ≠ id)
    (l : List (String × StoredRecord)) (d : StoredRecord) :
    lookupStore (setStore l id d) x = lookupStore l x := by
  induction l with
  | nil => simp only [setStore, lookupStore, if_neg (Ne.symm h)]
  | cons p rest ih =>
    by_cases hp : p.1 = id
    · have hpx : ¬ p.1 = x := by rw [hp]; exact Ne.symm h
      simp only [setStore, if_pos hp, lookupStore, if_neg (Ne.symm h), if_neg hpx]
    · by_cases hx : p.1 = x
      · simp only [setStore, if_neg hp, lookupStore, if_pos hx]
      · simp only [setStore, if_neg hp, lookupStore, if_neg hx, ih]

theorem lookup_eraseStore_self (l : List (String × StoredRecord)) (id : String) :
    lookupStore (eraseStore l id) id = none := by
  induction l with
  | nil => simp [eraseStore, lookupStore]
  | cons p rest ih =>
    by_cases h : p.1 = id
    · simp [eraseStore, h, ih]
    · simp [eraseStore, h, lookupStore, ih]

theorem lookup_eraseStore_ne {x id : String} (h : x ≠ id) (l : List (String × StoredRecord)) :
    lookupStore (eraseStore l id) x = lookupStore l x := by
  induction l with
  | nil => simp [eraseStore]
  | cons p rest ih =>
    by_cases hp : p.1 = id
    · have hpx : ¬ p.1 = x := by rw [hp]; exact Ne.symm h
      simp only [eraseStore, if_pos hp, lookupStore, if_neg hpx, ih]
    · by_cases hx : p.1 = x
      · simp only [eraseStore, if_neg hp, lookupStore, if_pos hx]
      · simp only [eraseStore, if_neg hp, lookupStore, if_neg hx, ih]

theorem lookup_isSome_iff_mem (l : List (String × StoredRecord)) (id : String) :
    (lookupStore l id).isSome = true ↔ id ∈ l.map Prod.fst := by
  induction l with
  | nil => simp [lookupStore]
  | cons p rest ih =>
    by_cases h : p.1 = id
    · simp [lookupStore, h]
    · simp [lookupStore, h, ih, Ne.symm h]

theorem mem_addAccount {x : String} (l : List String) (id : String) :
    x ∈ addAccount l id ↔ x ∈ l ∨ x = id := by
  by_cases h : id ∈ l
  · simp only [addAccount, if_pos h]
    constructor
    · exact Or.inl
    · rintro (hx | rfl)
      · exact hx
      · exact h
  · simp [addAccount, if_neg h]

theorem nodup_addAccount {l : List String} (hl : l.Nodup) (id : String) :
    (addAccount l id).Nodup := by
  by_cases h : id ∈ l
  · simpa [addAccount, if_pos h] using hl
  · simp only [addAccount, if_neg h]
    simp [List.nodup_append, hl, h]

/-! ### Collision-loop lemmas -/

theorem length_candList (cand : String) :
    ∀ (fuel : Nat) (temp : String) (count : Nat),
      (candList cand fuel temp count).length = fuel := by
  intro fuel
  induction fuel with
  | zero => intro temp count; rfl
  | succ fuel ih => intro temp count; simp [candList, ih]

theorem strAppend_cancel_left {a b c : String} (h : a ++ b = a ++ c) : b = c := by
  have hd := congrArg String.data h
  simp only [String.data_append] at hd
  have hbc := List.append_cancel_left hd
  cases b; cases c
  exact congrArg String.mk hbc

theorem mkSuffixed_inj {cand : String} {m n : Nat}
    (h : mkSuffixed cand m = mkSuffixed cand n) : m = n := by
  have h' : (cand ++ "_") ++ Nat.repr m = (cand ++ "_") ++ Nat.repr n := by
    simpa [mkSuffixed, String.append_assoc] using h
  exact nat_repr_injective (strAppend_cancel_left h')

theorem mkSuffixed_ne_base (cand : String) (n : Nat) : cand ≠ mkSuffixed cand n := by
  intro h
  have hlen := congrArg String.length h
  simp only [mkSuffixed, String.length_append] at hlen
  have hu : ("_" : String).length = 1 := rfl
  omega

theorem mem_candList_form {cand x : String} :
    ∀ (fuel : Nat) (temp : String) (count : Nat),
      x ∈ candList cand fuel temp count →
      x = temp ∨ ∃ n, count ≤ n ∧ x = mkSuffixed cand n := by
  intro fuel
  induction fuel with
  | zero => intro temp count h; simp [candList] at h
  | succ fuel ih =>
    intro temp count h
    simp only [candList, List.mem_cons] at h
    rcases h with rfl | h
    · exact Or.inl rfl
    · rcases ih (mkSuffixed cand count) (count + 1) h with rfl | ⟨n, hn, rfl⟩
      · exact Or.inr ⟨count, Nat.le_refl _, rfl⟩
      · exact Or.inr ⟨n, by omega, rfl⟩

theorem candList_nodup {cand : String} :
    ∀ (fuel : Nat) (temp : String) (count : Nat),
      (∀ n, count ≤ n → temp ≠ mkSuffixed cand n) →
      (candList cand fuel temp count).Nodup := by
  intro fuel
  induction fuel with
  | zero => intro temp count _; simp [candList]
  | succ fuel ih =>
    intro temp count htemp
    simp only [candList, List.nodup_cons]
    constructor
    · intro hmem
      rcases mem_candList_form fuel (mkSuffixed cand count) (count + 1) hmem with rfl | ⟨n, hn, rfl⟩
      · exact htemp count (Nat.le_refl _) rfl
      · exact htemp n (by omega) rfl
    · refine ih (mkSuffixed cand count) (count + 1) ?_
      intro n hn heq
      have := mkSuffixed_inj heq
      omega

theorem findFreeId_form (st : VaultState) (cand : String) :
    ∀ (fuel : Nat) (temp : String) (count : Nat),
      findFreeId st cand fuel temp count = temp ∨
      ∃ n, count ≤ n ∧ findFreeId st cand fuel temp count = mkSuffixed cand n := by
  intro fuel
  induction fuel with
  | zero => intro temp count; exact Or.inl rfl
  | succ fuel ih =>
    intro temp count
    by_cases h : (get_token_secret st temp).isSome
    · simp only [findFreeId, if_pos h]
      rcases ih (mkSuffixed cand count) (count + 1) with heq | ⟨n, hn, heq⟩
      · exact Or.inr ⟨count, Nat.le_refl _, heq⟩
      · exact Or.inr ⟨n, by omega, heq⟩
    · have heq : findFreeId st cand (fuel + 1) temp count = temp := by
        simp only [findFreeId, if_neg h]
      exact Or.inl heq

theorem findFreeId_free (st : VaultState) (cand : String) :
    ∀ (fuel : Nat) (temp : String) (count : Nat),
      (∃ x ∈ candList cand fuel temp count, ¬ (get_token_secret st x).isSome = true) →
      ¬ (get_token_secret st (findFreeId st cand fuel temp count)).isSome = true := by
  intro fuel
  induction fuel with
  | zero => intro temp count h; simp [candList] at h
  | succ fuel ih =>
    intro temp count h
    by_cases hocc : (get_token_secret st temp).isSome
    · simp only [findFreeId, if_pos hocc]
      refine ih (mkSuffixed cand count) (count + 1) ?_
      rcases h with ⟨x, hx, hfree⟩
      simp only [candList, List.mem_cons] at hx
      rcases hx with rfl | hx
      · exact absurd hocc hfree
      · exact ⟨x, hx, hfree⟩
    · simp only [findFreeId, if_neg hocc]
      exact hocc

theorem candList_exists_free (st : VaultState) (cand : String) :
    ∃ x ∈ candList cand (st.store.length + 1) cand 1,
      ¬ (get_token_secret st x).isSome = true := by
  by_contra hall
  push_neg at hall
  have hsub : candList cand (st.store.length + 1) cand 1 ⊆ st.store.map Prod.fst := by
    intro x hx
    have hsome := hall x hx
    have : (lookupStore st.store x).isSome = true := by
      simpa [get_token_secret] using hsome
    exact (lookup_isSome_iff_mem st.store x).mp this
  have hnd : (candList cand (st.store.length + 1) cand 1).Nodup := by
    refine candList_nodup (st.store.length + 1) cand 1 ?_
    intro n _ h
    exact mkSuffixed_ne_base cand n h
  have hle := (List.subperm_of_subset hnd hsub).length_le
  rw [length_candList, List.length_map] at hle
  omega

/-- The collision loop of `save_token_secret`, run with fuel
`store.length + 1`, returns an identifier with no stored record. -/
theorem resolveIdentifier_free (st : VaultState) (cand : String) :
    get_token_secret st (resolveIdentifier st cand) = none := by
  have h := findFreeId_free st cand (st.store.length + 1) cand 1 (candList_exists_free st cand)
  rw [← Option.not_isSome_iff_eq_none]
  exact h

/-- The identifier chosen for a new record is the derived candidate or
the candidate with a positive numeric suffix. -/
theorem resolveIdentifier_form (st : VaultState) (cand : String) :
    resolveIdentifier st cand = cand ∨
    ∃ n, 1 ≤ n ∧ resolveIdentifier st cand = mkSuffixed cand n :=
  findFreeId_form st cand (st.store.length + 1) cand 1

/-! ### Save/delete structure lemmas -/

theorem save_none_eq {st : VaultState} {a i s t : String} {rc : Option String}
    (h1 : ¬ (a = "" ∨ s = "" ∨ i = ""))
    (h2 : pyUpper t = "TOTP" ∨ pyUpper t = "HOTP") :
    save_token_secret st a i s t none rc =
      some ({ store := setStore st.store (resolveIdentifier st (mkCandidate i a)) (mkData a i s t rc)
              index := addAccount st.index (resolveIdentifier st (mkCandidate i a)) },
            resolveIdentifier st (mkCandidate i a)) := by
  simp only [save_token_secret, if_neg h1, if_neg (not_not_intro h2)]

theorem save_some_eq {st : VaultState} {a i s t id : String} {rc : Option String}
    (h1 : ¬ (a = "" ∨ s = "" ∨ i = ""))
    (h2 : pyUpper t = "TOTP" ∨ pyUpper t = "HOTP") (hid : id ≠ "") :
    save_token_secret st a i s t (some id) rc =
      some ({ store := setStore st.store id (mkData a i s t rc)
              index := addAccount st.index id }, id) := by
  simp only [save_token_secret, if_neg h1, if_neg (not_not_intro h2), if_neg hid]

theorem save_eq_none_of_empty {st : VaultState} {a i s t : String}
    {ident rc : Option String} (h1 : a = "" ∨ s = "" ∨ i = "") :
    save_token_secret st a i s t ident rc = none := by
  unfold save_token_secret
  rw [if_pos h1]

theorem save_eq_none_of_type {st : VaultState} {a i s t : String}
    {ident rc : Option String} (h2 : ¬ (pyUpper t = "TOTP" ∨ pyUpper t = "HOTP")) :
    save_token_secret st a i s t ident rc = none := by
  unfold save_token_secret
  by_cases h1 : a = "" ∨ s = "" ∨ i = ""
  · rw [if_pos h1]
  · rw [if_neg h1, if_pos h2]

/-- A truthy supplied identifier of `""` is falsy in Python, so it takes
the fresh-identifier path, exactly like `None`. -/
theorem save_some_empty {st : VaultState} {a i s t : String} {rc : Option String} :
    save_token_secret st a i s t (some "") rc = save_token_secret st a i s t none rc := by
  simp [save_token_secret]

/-- Whatever branch `save_token_secret` takes, a successful save writes
the assembled blob at the returned identifier and registers that
identifier in the accounts list. -/
theorem save_shape {st : VaultState} {a i s t : String} {ident : Option String}
    {rc : Option String} {st' : VaultState} {nid : String}
    (h : save_token_secret st a i s t ident rc = some (st', nid)) :
    st' = { store := setStore st.store nid (mkData a i s t rc)
            index := addAccount st.index nid } := by
  by_cases h1 : a = "" ∨ s = "" ∨ i = ""
  · rw [save_eq_none_of_empty h1] at h; cases h
  by_cases h2 : pyUpper t = "TOTP" ∨ pyUpper t = "HOTP"
  · have h1' : ¬ (a = "" ∨ s = "" ∨ i = "") := h1
    match ident with
    | none =>
      rw [save_none_eq h1' h2, Option.some.injEq, Prod.mk.injEq] at h
      obtain ⟨hst, hid⟩ := h
      rw [← hst, ← hid]
    | some id =>
      by_cases hid0 : id = ""
      · subst hid0
        rw [save_some_empty, save_none_eq h1' h2, Option.some.injEq, Prod.mk.injEq] at h
        obtain ⟨hst, hid⟩ := h
        rw [← hst, ← hid]
      · rw [save_some_eq h1' h2 hid0, Option.some.injEq, Prod.mk.injEq] at h
        obtain ⟨hst, hid⟩ := h
        rw [← hst, ← hid]
  · rw [save_eq_none_of_type h2] at h; cases h

theorem save_get_self {st : VaultState} {a i s t : String} {ident : Option String}
    {rc : Option String} {st' : VaultState} {nid : String}
    (h : save_token_secret st a i s t ident rc = some (st', nid)) :
    get_token_secret st' nid = some (toInfo nid (mkData a i s t rc)) := by
  rw [save_shape h]
  simp [get_token_secret, lookup_setStore_self]

theorem save_get_other {st : VaultState} {a i s t : String} {ident : Option String}
    {rc : Option String} {st' : VaultState} {nid : String} {x : String}
    (h : save_token_secret st a i s t ident rc = some (st', nid)) (hx : x ≠ nid) :
    get_token_secret st' x = get_token_secret st x := by
  rw [save_shape h]
  simp [get_token_secret, lookup_setStore_ne hx]

theorem save_mem_index {st : VaultState} {a i s t : String} {ident : Option String}
    {rc : Option String} {st' : VaultState} {nid : String}
    (h : save_token_secret st a i s t ident rc = some (st', nid)) :
    nid ∈ st'.index := by
  rw [save_shape h]
  exact (mem_addAccount st.index nid).mpr (Or.inr rfl)

/-- A save with no (truthy) supplied identifier writes at an identifier
that had no record before the save. -/
theorem save_none_fresh {st : VaultState} {a i s t : String} {rc : Option String}
    {st' : VaultState} {nid : String}
    (h : save_token_secret st a i s t none rc = some (st', nid)) :
    get_token_secret st nid = none := by
  by_cases h1 : a = "" ∨ s = "" ∨ i = ""
  · rw [save_eq_none_of_empty h1] at h; cases h
  by_cases h2 : pyUpper t = "TOTP" ∨ pyUpper t = "HOTP"
  · rw [save_none_eq h1 h2, Option.some.injEq, Prod.mk.injEq] at h
    rw [← h.2]
    exact resolveIdentifier_free st (mkCandidate i a)
  · rw [save_eq_none_of_type h2] at h; cases h

/-! ### The accounts-index invariant -/

theorem vaultWF_empty : VaultWF emptyVault := by
  constructor
  · simp [emptyVault]
  · intro id
    simp [emptyVault, get_token_secret, lookupStore]

theorem vaultWF_save {st : VaultState} {a i s t : String} {ident : Option String}
    {rc : Option String} {st' : VaultState} {nid : String}
    (hwf : VaultWF st) (h : save_token_secret st a i s t ident rc = some (st', nid)) :
    VaultWF st' := by
  obtain ⟨hnd, hiff⟩ := hwf
  rw [save_shape h]
  constructor
  · exact nodup_addAccount hnd nid
  · intro x
    by_cases hx : x = nid
    · subst hx
      simp [mem_addAccount, get_token_secret, lookup_setStore_self]
    · rw [mem_addAccount]
      simp only [get_token_secret, lookup_setStore_ne hx, Option.isSome_map]
      constructor
      · rintro (hmem | rfl)
        · have := (hiff x).mp hmem
          simpa [get_token_secret, Option.isSome_map] using this
        · exact absurd rfl hx
      · intro hsome
        refine Or.inl ((hiff x).mpr ?_)
        simpa [get_token_secret, Option.isSome_map] using hsome

theorem vaultWF_delete (st : VaultState) (id : String) (hwf : VaultWF st) :
    VaultWF (delete_token_secret st id) := by
  obtain ⟨hnd, hiff⟩ := hwf
  unfold delete_token_secret delete_token_secret_outcome
  by_cases hpres : (lookupStore st.store id).isSome = true
  · rw [if_pos hpres]
    constructor
    · exact hnd.erase id
    · intro x
      by_cases hx : x = id
      · subst hx
        simp [removeAccount, hnd.mem_erase_iff, get_token_secret, lookup_eraseStore_self]
      · simp only [removeAccount, hnd.mem_erase_iff, get_token_secret,
          lookup_eraseStore_ne hx, Option.isSome_map]
        constructor
        · rintro ⟨-, hmem⟩
          have := (hiff x).mp hmem
          simpa [get_token_secret, Option.isSome_map] using this
        · intro hsome
          refine ⟨hx, (hiff x).mpr ?_⟩
          simpa [get_token_secret, Option.isSome_map] using hsome
  · rw [if_neg hpres]
    have hnm : id ∉ st.index := by
      intro hmem
      have := (hiff id).mp hmem
      simp [get_token_secret, Option.isSome_map] at this
      exact hpres (by simp [this])
    constructor
    · exact hnd.erase id
    · intro x
      rw [removeAccount, List.erase_of_not_mem hnm]
      exact hiff x

/-! ### Helper lemmas about the chosen identifier -/

theorem resolveIdentifier_occupied (st : VaultState) (cand : String)
    (h : resolveIdentifier st cand ≠ cand) :
    (get_token_secret st cand).isSome = true := by
  by_contra hocc
  apply h
  simp only [resolveIdentifier, findFreeId]
  rw [if_neg hocc]

theorem save_none_id {st : VaultState} {a i s t : String} {rc : Option String}
    {st' : VaultState} {nid : String}
    (h : save_token_secret st a i s t none rc = some (st', nid)) :
    nid = resolveIdentifier st (mkCandidate i a) := by
  by_cases h1 : a = "" ∨ s = "" ∨ i = ""
  · rw [save_eq_none_of_empty h1] at h; cases h
  by_cases h2 : pyUpper t = "TOTP" ∨ pyUpper t = "HOTP"
  · rw [save_none_eq h1 h2, Option.some.injEq, Prod.mk.injEq] at h
    exact h.2.symm
  · rw [save_eq_none_of_type h2] at h; cases h

theorem save_some_id {st : VaultState} {a i s t id : String} {rc : Option String}
    {st' : VaultState} {rid : String} (hid : id ≠ "")
    (h : save_token_secret st a i s t (some id) rc = some (st', rid)) :
    rid = id := by
  by_cases h1 : a = "" ∨ s = "" ∨ i = ""
  · rw [save_eq_none_of_empty h1] at h; cases h
  by_cases h2 : pyUpper t = "TOTP" ∨ pyUpper t = "HOTP"
  · rw [save_some_eq h1 h2 hid, Option.some.injEq, Prod.mk.injEq] at h
    exact h.2.symm
  · rw [save_eq_none_of_type h2] at h; cases h

theorem applyOps_wf : ∀ (ops : List VaultOp) (st : VaultState),
    VaultWF st → VaultWF (applyOps st ops) := by
  intro ops
  induction ops with
  | nil => intro st h; exact h
  | cons op rest ih =>
    intro st h
    refine ih (applyOp st op) ?_
    cases op with
    | saveOp a i s t ident rc =>
      simp only [applyOp]
      cases hsave : save_token_secret st a i s t ident rc with
      | none => exact h
      | some p =>
        have hsave' : save_token_secret st a i s t ident rc = some (p.1, p.2) := by
          rw [hsave]
        exact vaultWF_save h hsave'
    | deleteOp id => exact vaultWF_delete st id h

/-! ### C2 -/

/-- C2: starting from an empty vault, after any finite sequence of save
and delete operations (whose identifiers stay clear of the two reserved
keyring keys, which the embedding keeps in separate fields), the
accounts index returned by `get_all_token_identifiers` contains exactly
the identifiers for which `get_token_secret` returns a record. -/
theorem index_consistency (ops : List VaultOp)
    (hops : ∀ op ∈ ops, opOk op = true) :
    ∀ id, id ∈ get_all_token_identifiers (applyOps emptyVault ops) ↔
      (get_token_secret (applyOps emptyVault ops) id).isSome = true := by
  intro id
  simp only [get_all_token_identifiers]
  exact (applyOps_wf ops emptyVault vaultWF_empty).2 id

/-- Witness for C2 on a concrete sequence of two fresh saves, a delete
of an existing identifier, an explicit-identifier save and a delete of a
missing identifier. -/
theorem index_consistency_witness :
    (∀ op ∈ opsEx, opOk op = true) ∧
    (∀ id, id ∈ get_all_token_identifiers (applyOps emptyVault opsEx) ↔
      (get_token_secret (applyOps emptyVault opsEx) id).isSome = true) :=
  ⟨by decide, index_consistency opsEx (by decide)⟩

/-! ### C3 -/

/-- C3 counterexample: when the backing delete raises an exception that
is neither `PasswordDeleteError` nor `NoKeyringError`, the handler only
prints, so the identifier is still in the accounts index afterwards —
refuting the claim that index cleanup is unconditional for every error
other than "not found". -/
theorem delete_index_cleanup_counterexample :
    "google_alice" ∈ (delete_token_secret_outcome stRecovery "google_alice"
      DeleteOutcome.otherError).index := by
  decide

/-- C3 amended: the identifier is removed from the accounts index when
the backing delete succeeds or raises `PasswordDeleteError` (the "not
found" error); on `NoKeyringError` or any other exception the whole
state, index included, is left unchanged. -/
theorem delete_index_cleanup_amended (st : VaultState) (id : String)
    (hnd : st.index.Nodup) :
    id ∉ (delete_token_secret_outcome st id DeleteOutcome.success).index ∧
    id ∉ (delete_token_secret_outcome st id DeleteOutcome.passwordDeleteError).index ∧
    delete_token_secret_outcome st id DeleteOutcome.noKeyringError = st ∧
    delete_token_secret_outcome st id DeleteOutcome.otherError = st := by
  refine ⟨?_, ?_, rfl, rfl⟩
  · simp [delete_token_secret_outcome, removeAccount, hnd.mem_erase_iff]
  · simp [delete_token_secret_outcome, removeAccount, hnd.mem_erase_iff]

/-- Witness for the amended C3 at a concrete one-token vault. -/
theorem delete_index_cleanup_amended_witness :
    stRecovery.index.Nodup ∧
    ("google_alice" ∉ (delete_token_secret_outcome stRecovery "google_alice"
        DeleteOutcome.success).index ∧
     "google_alice" ∉ (delete_token_secret_outcome stRecovery "google_alice"
        DeleteOutcome.passwordDeleteError).index ∧
     delete_token_secret_outcome stRecovery "google_alice"
        DeleteOutcome.noKeyringError = stRecovery ∧
     delete_token_secret_outcome stRecovery "google_alice"
        DeleteOutcome.otherError = stRecovery) :=
  ⟨by decide, delete_index_cleanup_amended stRecovery "google_alice" (by decide)⟩

/-! ### C4 -/

/-- C4 counterexample: a read with the backend unavailable returns
exactly the same value as a read of an absent identifier on a healthy
empty vault (`None`, resp. `[]`) — the two outcomes are not
distinguishable at the call boundary, refuting the claim. -/
theorem unavailable_read_counterexample :
    get_token_secret_b Backend.unavailable "google_alice" =
      get_token_secret_b (Backend.ok emptyVault) "google_alice" ∧
    get_all_token_identifiers_b Backend.unavailable =
      get_all_token_identifiers_b (Backend.ok emptyVault) :=
  ⟨rfl, rfl⟩

/-- C4 amended: when the backend is unavailable, `get_token_secret`
returns `None` and `get_all_token_identifiers` returns `[]` — the very
values a healthy backend produces for a missing record or an empty
vault, so callers of the read paths cannot tell the two situations
apart from the returned value (only a printed diagnostic differs). -/
theorem unavailable_read_amended (st : VaultState) (id : String) :
    get_token_secret_b Backend.unavailable id = none ∧
    get_all_token_identifiers_b Backend.unavailable = [] ∧
    (get_token_secret st id = none →
      get_token_secret_b Backend.unavailable id = get_token_secret_b (Backend.ok st) id) := by
  refine ⟨rfl, rfl, ?_⟩
  intro h
  simp [get_token_secret_b, h]

/-- Witness for the amended C4. -/
theorem unavailable_read_amended_witness :
    get_token_secret_b Backend.unavailable "x" =
      get_token_secret_b (Backend.ok emptyVault) "x" :=
  (unavailable_read_amended emptyVault "x").2.2 rfl

/-! ### C5 -/

/-- C5: two fresh saves (no identifier supplied) with the same issuer
and account return distinct identifiers, the second being the derived
candidate with a positive numeric suffix appended; a save with an
explicit (truthy) identifier returns exactly that identifier. -/
theorem identifier_uniqueness :
    (∀ (st : VaultState) (a i s s' t t' : String) (rc rc' : Option String)
        (st₁ st₂ : VaultState) (id₁ id₂ : String),
        save_token_secret st a i s t none rc = some (st₁, id₁) →
        save_token_secret st₁ a i s' t' none rc' = some (st₂, id₂) →
        id₂ ≠ id₁ ∧ ∃ n, 1 ≤ n ∧ id₂ = mkSuffixed (mkCandidate i a) n) ∧
    (∀ (st : VaultState) (a i s t id : String) (rc : Option String)
        (st' : VaultState) (rid : String),
        id ≠ "" →
        save_token_secret st a i s t (some id) rc = some (st', rid) →
        rid = id) := by
  constructor
  · intro st a i s s' t t' rc rc' st₁ st₂ id₁ id₂ h₁ h₂
    have hself := save_get_self h₁
    have hfresh := save_none_fresh h₂
    have hne : id₂ ≠ id₁ := by
      intro heq
      rw [heq, hself] at hfresh
      cases hfresh
    refine ⟨hne, ?_⟩
    have hid₂ := save_none_id h₂
    have hcand_ne : resolveIdentifier st₁ (mkCandidate i a) ≠ mkCandidate i a := by
      intro hbase
      have hfree := resolveIdentifier_free st₁ (mkCandidate i a)
      rw [hbase] at hfree
      have hid₁ := save_none_id h₁
      rcases resolveIdentifier_form st (mkCandidate i a) with hb | ⟨n, hn, hs⟩
      · rw [hid₁, hb] at hself
        rw [hself] at hfree
        cases hfree
      · have hocc : (get_token_secret st (mkCandidate i a)).isSome = true := by
          apply resolveIdentifier_occupied
          rw [hs]
          exact Ne.symm (mkSuffixed_ne_base _ n)
        have hpres : get_token_secret st₁ (mkCandidate i a) =
            get_token_secret st (mkCandidate i a) := by
          apply save_get_other h₁
          rw [hid₁, hs]
          exact mkSuffixed_ne_base _ n
        rw [hfree] at hpres
        rw [← hpres] at hocc
        simp at hocc
    rcases resolveIdentifier_form st₁ (mkCandidate i a) with hb | ⟨n, hn, hs⟩
    · exact absurd hb hcand_ne
    · exact ⟨n, hn, by rw [hid₂, hs]⟩
  · intro st a i s t id rc st' rid hid h
    exact save_some_id hid h

/-- Witness for C5: alice at Google saved twice into an empty vault
yields "google_alice" then "google_alice_1"; an explicit identifier
"custom" is returned unchanged. -/
theorem identifier_uniqueness_witness :
    (("google_alice_1" : String) ≠ "google_alice" ∧
      ∃ n, 1 ≤ n ∧ ("google_alice_1" : String) = mkSuffixed (mkCandidate "Google" "alice") n) ∧
    ("custom" : String) = "custom" :=
  ⟨identifier_uniqueness.1 emptyVault "alice" "Google" "SEC" "SEC2" "TOTP" "TOTP" none none
      stA stB "google_alice" "google_alice_1" (by decide) (by decide),
   identifier_uniqueness.2 emptyVault "bob" "Git Hub" "S" "HOTP" "custom" none
      stC "custom" (by decide) (by decide)⟩

/-! ### C10 -/

/-- C10: `save_token_secret` accepts any token type whose upper-casing
is TOTP or HOTP but stores the supplied string verbatim, so a subsequent
`get_token_secret` returns the type exactly as passed; only a stored
record with no type field at all is defaulted to "TOTP" on read. -/
theorem token_type_verbatim :
    (∀ (st : VaultState) (a i s t : String) (rc : Option String),
        a ≠ "" → i ≠ "" → s ≠ "" →
        (pyUpper t = "TOTP" ∨ pyUpper t = "HOTP") →
        ∃ (st' : VaultState) (nid : String),
          save_token_secret st a i s t none rc = some (st', nid) ∧
          (get_token_secret st' nid).map TokenInfo.type = some t) ∧
    (∀ (st : VaultState) (id : String) (r : StoredRecord),
        lookupStore st.store id = some r → r.type = none →
        (get_token_secret st id).map TokenInfo.type = some "TOTP") := by
  constructor
  · intro st a i s t rc ha hi hs ht
    have h1 : ¬ (a = "" ∨ s = "" ∨ i = "") := by simp [ha, hi, hs]
    refine ⟨_, _, save_none_eq h1 ht, ?_⟩
    rw [save_get_self (save_none_eq h1 ht)]
    simp [toInfo, mkData]
  · intro st id r hr htype
    simp [get_token_secret, hr, toInfo, htype]

/-- Witness for C10: the lower-case type "totp" is accepted and comes
back verbatim; a legacy record with no type field reads as "TOTP". -/
theorem token_type_verbatim_witness :
    (pyUpper "totp" = "TOTP" ∧
      ∃ (st' : VaultState) (nid : String),
        save_token_secret emptyVault "alice" "Google" "SEC" "totp" none none = some (st', nid) ∧
        (get_token_secret st' nid).map TokenInfo.type = some "totp") ∧
    (get_token_secret stLegacy "legacy").map TokenInfo.type = some "TOTP" :=
  ⟨⟨by decide,
    token_type_verbatim.1 emptyVault "alice" "Google" "SEC" "totp" none
      (by decide) (by decide) (by decide) (Or.inl (by decide))⟩,
   token_type_verbatim.2 stLegacy "legacy" ⟨some "a", some "b", some "c", none, none⟩
      rfl rfl⟩

/-! ### C6 -/

/-- C6: with PBKDF2 abstracted as a pin-injective hash (for the fixed
salt) producing truthy hex digests, setting a PIN of length at least 4
and verifying the same PIN succeeds; verifying any other PIN fails; and
verifying against the empty credential store (no set yet) fails. -/
theorem pin_round_trip :
    ∀ (hashPin : String → String → String) (pin salt : String),
      4 ≤ pin.length → salt ≠ "" →
      (∀ p, hashPin p salt ≠ "") →
      (∀ p q, hashPin p salt = hashPin q salt → p = q) →
      ∃ st' : PinState, set_app_pin hashPin pin salt = some st' ∧
        verify_app_pin hashPin st' pin = true ∧
        (∀ other, other ≠ pin → verify_app_pin hashPin st' other = false) ∧
        (∀ p, verify_app_pin hashPin emptyPinState p = false) := by
  intro hashPin pin salt hlen hsalt hne hinj
  have hset : set_app_pin hashPin pin salt =
      some ⟨some salt, some (hashPin pin salt)⟩ := by
    simp [set_app_pin, Nat.not_lt.mpr hlen]
  refine ⟨_, hset, ?_, ?_, ?_⟩
  · simp [verify_app_pin, hsalt, hne pin]
  · intro other hother
    simp only [verify_app_pin]
    rw [if_neg (by simp [hsalt, hne pin])]
    rw [beq_eq_false_iff_ne]
    exact fun heq => hother (hinj other pin heq)
  · intro p
    simp [verify_app_pin, emptyPinState]

/-- Witness for C6 with an explicit injective hash stand-in. -/
theorem pin_round_trip_witness :
    ∃ st' : PinState, set_app_pin hashPinEx "1234" "SALT" = some st' ∧
      verify_app_pin hashPinEx st' "1234" = true ∧
      (∀ other, other ≠ "1234" → verify_app_pin hashPinEx st' other = false) ∧
      (∀ p, verify_app_pin hashPinEx emptyPinState p = false) :=
  pin_round_trip hashPinEx "1234" "SALT" (by decide) (by decide)
    (fun p hp => absurd (congrArg String.data hp) (by simp [hashPinEx]))
    (fun p q h => strAppend_cancel_left h)

/-! ### C7 -/

/-- Verify-call count of the unlock loop never exceeds the remaining
fuel plus the verifies already made. -/
theorem promptLoop_verifies_le (verify : String → Bool) (entries : Nat → Option String) :
    ∀ (fuel attempts verifies : Nat),
      (promptLoop verify entries attempts verifies fuel).2 ≤ verifies + fuel := by
  intro fuel
  induction fuel with
  | zero => intro attempts verifies; simp [promptLoop]
  | succ fuel ih =>
    intro attempts verifies
    rw [promptLoop]
    cases entries attempts with
    | none => simp
    | some pin =>
      dsimp only
      by_cases hp : pin ≠ ""
      · rw [if_pos hp]
        by_cases hv : verify pin = true
        · rw [if_pos hv]; omega
        · rw [if_neg hv]
          have := ih (attempts + 1) (verifies + 1)
          omega
      · rw [if_neg hp]
        have := ih (attempts + 1) verifies
        omega

/-- C7: in the unlock protocol, three consecutive failed verifies
exhaust the attempt cap: the session attempt terminates with access
denied and exactly three verify calls were made (never a fourth, which
also holds unconditionally); a successful verify at attempt 0, 1 or 2
grants access; and every invocation starts with the attempt counter
reset to zero. -/
theorem unlock_attempt_cap :
    (∀ (verify : String → Bool) (entries : Nat → Option String),
        (∀ i, i < 3 → (entries i).isSome = true ∧ (entries i).getD "" ≠ "" ∧
          verify ((entries i).getD "") = false) →
        prompt_for_pin_and_unlock verify entries = (UnlockResult.deniedMaxAttempts, 3)) ∧
    (∀ (verify : String → Bool) (entries : Nat → Option String) (k : Nat),
        k < 3 →
        (∀ i, i < k → (entries i).isSome = true ∧ (entries i).getD "" ≠ "" ∧
          verify ((entries i).getD "") = false) →
        ((entries k).isSome = true ∧ (entries k).getD "" ≠ "" ∧
          verify ((entries k).getD "") = true) →
        (prompt_for_pin_and_unlock verify entries).1 = UnlockResult.unlocked) ∧
    (∀ (verify : String → Bool) (entries : Nat → Option String),
        (prompt_for_pin_and_unlock verify entries).2 ≤ 3) ∧
    (∀ (verify : String → Bool) (entries : Nat → Option String),
        prompt_for_pin_and_unlock verify entries = promptLoop verify entries 0 0 MAX_PIN_ATTEMPTS) := by
  refine ⟨?_, ?_, ?_, fun _ _ => rfl⟩
  · intro verify entries h
    obtain ⟨hs0, hne0, hv0⟩ := h 0 (by omega)
    obtain ⟨hs1, hne1, hv1⟩ := h 1 (by omega)
    obtain ⟨hs2, hne2, hv2⟩ := h 2 (by omega)
    obtain ⟨p0, hp0⟩ := Option.isSome_iff_exists.mp hs0
    obtain ⟨p1, hp1⟩ := Option.isSome_iff_exists.mp hs1
    obtain ⟨p2, hp2⟩ := Option.isSome_iff_exists.mp hs2
    rw [hp0] at hne0 hv0
    rw [hp1] at hne1 hv1
    rw [hp2] at hne2 hv2
    simp only [Option.getD_some] at hne0 hv0 hne1 hv1 hne2 hv2
    simp [prompt_for_pin_and_unlock, MAX_PIN_ATTEMPTS, promptLoop,
      hp0, hp1, hp2, hne0, hne1, hne2, hv0, hv1, hv2]
  · intro verify entries k hk hfail hsucc
    obtain ⟨hsk, hnek, hvk⟩ := hsucc
    obtain ⟨pk, hpk⟩ := Option.isSome_iff_exists.mp hsk
    rw [hpk] at hnek hvk
    simp only [Option.getD_some] at hnek hvk
    interval_cases k
    · simp [prompt_for_pin_and_unlock, MAX_PIN_ATTEMPTS, promptLoop, hpk, hnek, hvk]
    · obtain ⟨hs0, hne0, hv0⟩ := hfail 0 (by omega)
      obtain ⟨p0, hp0⟩ := Option.isSome_iff_exists.mp hs0
      rw [hp0] at hne0 hv0
      simp only [Option.getD_some] at hne0 hv0
      simp [prompt_for_pin_and_unlock, MAX_PIN_ATTEMPTS, promptLoop,
        hp0, hne0, hv0, hpk, hnek, hvk]
    · obtain ⟨hs0, hne0, hv0⟩ := hfail 0 (by omega)
      obtain ⟨hs1, hne1, hv1⟩ := hfail 1 (by omega)
      obtain ⟨p0, hp0⟩ := Option.isSome_iff_exists.mp hs0
      obtain ⟨p1, hp1⟩ := Option.isSome_iff_exists.mp hs1
      rw [hp0] at hne0 hv0
      rw [hp1] at hne1 hv1
      simp only [Option.getD_some] at hne0 hv0 hne1 hv1
      simp [prompt_for_pin_and_unlock, MAX_PIN_ATTEMPTS, promptLoop,
        hp0, hne0, hv0, hp1, hne1, hv1, hpk, hnek, hvk]
  · intro verify entries
    have := promptLoop_verifies_le verify entries MAX_PIN_ATTEMPTS 0 0
    simpa [prompt_for_pin_and_unlock, MAX_PIN_ATTEMPTS] using this

/-- Witness for C7: all-wrong entries are denied after exactly three
verify calls; a correct PIN at the third prompt unlocks. -/
theorem unlock_attempt_cap_witness :
    prompt_for_pin_and_unlock (fun _ => false) (fun _ => some "9") =
      (UnlockResult.deniedMaxAttempts, 3) ∧
    (prompt_for_pin_and_unlock (fun p => p == "1234")
      (fun i => some (if i == 2 then "1234" else "9"))).1 = UnlockResult.unlocked :=
  ⟨unlock_attempt_cap.1 (fun _ => false) (fun _ => some "9") (by decide),
   unlock_attempt_cap.2.1 (fun p => p == "1234")
     (fun i => some (if i == 2 then "1234" else "9")) 2 (by decide) (by decide) (by decide)⟩

/-! ### Backup-codec lemmas -/

theorem truthy_spec {o : Option String} (h : truthy o = true) :
    o = some (o.getD "") ∧ o.getD "" ≠ "" := by
  cases o with
  | none => simp [truthy] at h
  | some s =>
    simp only [truthy, decide_eq_true_eq] at h
    exact ⟨rfl, h⟩

theorem lookupStore_mem {l : List (String × StoredRecord)} {id : String} {r : StoredRecord}
    (h : lookupStore l id = some r) : ∃ p ∈ l, p.1 = id ∧ p.2 = r := by
  induction l with
  | nil => simp [lookupStore] at h
  | cons p rest ih =>
    by_cases hp : p.1 = id
    · simp only [lookupStore, if_pos hp, Option.some.injEq] at h
      exact ⟨p, List.mem_cons_self p rest, hp, h⟩
    · simp only [lookupStore, if_neg hp] at h
      obtain ⟨q, hq, hq1, hq2⟩ := ih h
      exact ⟨q, List.mem_cons_of_mem p hq, hq1, hq2⟩

theorem mem_gatd_truthy {st : VaultState} {info : TokenInfo}
    (h : info ∈ get_all_token_data st) :
    truthy info.account_name = true ∧ truthy info.secret_key = true ∧
    truthy info.issuer_name = true := by
  rw [get_all_token_data, List.mem_filter] at h
  have := h.2
  simp only [Bool.and_eq_true] at this
  exact ⟨this.1.1, this.1.2, this.2⟩

theorem mem_gatd_exists {st : VaultState} {info : TokenInfo}
    (h : info ∈ get_all_token_data st) :
    ∃ id ∈ st.index, get_token_secret st id = some info := by
  rw [get_all_token_data, List.mem_filter] at h
  have := h.1
  rw [List.mem_filterMap] at this
  obtain ⟨id, hid, hget⟩ := this
  exact ⟨id, hid, hget⟩

theorem gatd_mem_of {st : VaultState} {id : String} {info : TokenInfo}
    (hidx : id ∈ st.index) (hget : get_token_secret st id = some info)
    (h1 : truthy info.account_name = true) (h2 : truthy info.secret_key = true)
    (h3 : truthy info.issuer_name = true) :
    info ∈ get_all_token_data st := by
  rw [get_all_token_data, List.mem_filter]
  constructor
  · rw [List.mem_filterMap]
    exact ⟨id, hidx, hget⟩
  · simp [h1, h2, h3]

theorem mem_gatd_type_valid {st : VaultState} {info : TokenInfo}
    (h : info ∈ get_all_token_data st)
    (htype : ∀ p ∈ st.store, pyUpper (p.2.type.getD "TOTP") = "TOTP" ∨
      pyUpper (p.2.type.getD "TOTP") = "HOTP") :
    pyUpper info.type = "TOTP" ∨ pyUpper info.type = "HOTP" := by
  obtain ⟨id, -, hget⟩ := mem_gatd_exists h
  rw [get_token_secret] at hget
  cases hlook : lookupStore st.store id with
  | none => rw [hlook] at hget; cases hget
  | some r =>
    rw [hlook, Option.map_some'] at hget
    obtain ⟨p, hp, -, hpr⟩ := lookupStore_mem hlook
    have hv := htype p hp
    rw [hpr] at hv
    rw [Option.some.injEq] at hget
    have htype_eq : info.type = r.type.getD "TOTP" := by
      rw [← hget]
      rfl
    rw [htype_eq]
    exact hv

theorem save_none_preserves {st : VaultState} {a i s t : String} {rc : Option String}
    {st' : VaultState} {nid : String} {x : String} {v : TokenInfo}
    (h : save_token_secret st a i s t none rc = some (st', nid))
    (hx : get_token_secret st x = some v) : get_token_secret st' x = some v := by
  have hfresh := save_none_fresh h
  have hxne : x ≠ nid := by
    intro heq
    rw [heq, hfresh] at hx
    cases hx
  rw [save_get_other h hxne]
  exact hx

theorem restoreStep_ok (st : VaultState) {e : BackupEntry} (hok : entryOk e) :
    ∃ st' nid,
      save_token_secret st (e.account_name.getD "") (e.issuer_name.getD "")
        (e.secret_key.getD "") (e.type.getD "TOTP") none none = some (st', nid) ∧
      restoreStep st e = (st', 1, 0) := by
  obtain ⟨ha, hi, hs, ht⟩ := hok
  have h1 : ¬ (e.account_name.getD "" = "" ∨ e.secret_key.getD "" = "" ∨
      e.issuer_name.getD "" = "") := by
    simp [(truthy_spec ha).2, (truthy_spec hi).2, (truthy_spec hs).2]
  refine ⟨_, _, save_none_eq h1 ht, ?_⟩
  rw [restoreStep, if_pos (by simp [ha, hi, hs]), save_none_eq h1 ht]

theorem restoreStep_preserves {st : VaultState} {e : BackupEntry} {x : String}
    {v : TokenInfo} (hx : get_token_secret st x = some v) :
    get_token_secret (restoreStep st e).1 x = some v := by
  rw [restoreStep]
  by_cases hc : (truthy e.account_name && truthy e.issuer_name && truthy e.secret_key) = true
  · rw [if_pos hc]
    cases hsave : save_token_secret st (e.account_name.getD "") (e.issuer_name.getD "")
        (e.secret_key.getD "") (e.type.getD "TOTP") none none with
    | none => exact hx
    | some p =>
      have hsave' : save_token_secret st (e.account_name.getD "") (e.issuer_name.getD "")
          (e.secret_key.getD "") (e.type.getD "TOTP") none none = some (p.1, p.2) := by
        rw [hsave]
      exact save_none_preserves hsave' hx
  · rw [if_neg hc]
    exact hx

theorem restoreStep_index_mem {st : VaultState} {e : BackupEntry} {x : String}
    (hx : x ∈ st.index) : x ∈ (restoreStep st e).1.index := by
  rw [restoreStep]
  by_cases hc : (truthy e.account_name && truthy e.issuer_name && truthy e.secret_key) = true
  · rw [if_pos hc]
    cases hsave : save_token_secret st (e.account_name.getD "") (e.issuer_name.getD "")
        (e.secret_key.getD "") (e.type.getD "TOTP") none none with
    | none => exact hx
    | some p =>
      have hsave' : save_token_secret st (e.account_name.getD "") (e.issuer_name.getD "")
          (e.secret_key.getD "") (e.type.getD "TOTP") none none = some (p.1, p.2) := by
        rw [hsave]
      rw [save_shape hsave']
      exact (mem_addAccount st.index p.2).mpr (Or.inl hx)
  · rw [if_neg hc]
    exact hx

theorem restoreEntries_preserves :
    ∀ (entries : List BackupEntry) (st : VaultState) (x : String) (v : TokenInfo),
      get_token_secret st x = some v →
      get_token_secret (restoreEntries st entries).1 x = some v := by
  intro entries
  induction entries with
  | nil => intro st x v hx; exact hx
  | cons e rest ih =>
    intro st x v hx
    exact ih (restoreStep st e).1 x v (restoreStep_preserves hx)

theorem restoreEntries_index_mem :
    ∀ (entries : List BackupEntry) (st : VaultState) (x : String),
      x ∈ st.index → x ∈ (restoreEntries st entries).1.index := by
  intro entries
  induction entries with
  | nil => intro st x hx; exact hx
  | cons e rest ih =>
    intro st x hx
    exact ih (restoreStep st e).1 x (restoreStep_index_mem hx)

theorem restoreEntries_entry :
    ∀ (entries : List BackupEntry) (st : VaultState) (e : BackupEntry),
      e ∈ entries → entryOk e →
      ∃ id, get_token_secret st id = none ∧
        get_token_secret (restoreEntries st entries).1 id =
          some (toInfo id (mkData (e.account_name.getD "") (e.issuer_name.getD "")
            (e.secret_key.getD "") (e.type.getD "TOTP") none)) ∧
        id ∈ (restoreEntries st entries).1.index := by
  intro entries
  induction entries with
  | nil => intro st e he; cases he
  | cons e' rest ih =>
    intro st e he hok
    rcases List.mem_cons.mp he with rfl | hmem
    · obtain ⟨st', nid, hsave, hstep⟩ := restoreStep_ok st hok
      refine ⟨nid, save_none_fresh hsave, ?_, ?_⟩
      · have hself := save_get_self hsave
        have : get_token_secret (restoreEntries st' rest).1 nid =
            some (toInfo nid (mkData (e.account_name.getD "") (e.issuer_name.getD "")
              (e.secret_key.getD "") (e.type.getD "TOTP") none)) :=
          restoreEntries_preserves rest st' nid _ hself
        simpa [restoreEntries, hstep] using this
      · have hmemidx := save_mem_index hsave
        have : nid ∈ (restoreEntries st' rest).1.index :=
          restoreEntries_index_mem rest st' nid hmemidx
        simpa [restoreEntries, hstep] using this
    · obtain ⟨id, hfree, hsome, hidx⟩ := ih (restoreStep st e').1 e hmem hok
      refine ⟨id, ?_, ?_, ?_⟩
      · by_contra hne
        cases hget : get_token_secret st id with
        | none => exact hne hget
        | some v =>
          rw [restoreStep_preserves hget] at hfree
          cases hfree
      · simpa [restoreEntries] using hsome
      · simpa [restoreEntries] using hidx

theorem addAccount_length {l : List String} {id : String} (h : id ∉ l) :
    (addAccount l id).length = l.length + 1 := by
  simp [addAccount, if_neg h]

theorem restoreEntries_counts :
    ∀ (entries : List BackupEntry) (st : VaultState),
      (∀ e ∈ entries, entryOk e) → VaultWF st →
      (restoreEntries st entries).2.1 = entries.length ∧
      (restoreEntries st entries).2.2 = 0 ∧
      (restoreEntries st entries).1.index.length = st.index.length + entries.length ∧
      VaultWF (restoreEntries st entries).1 := by
  intro entries
  induction entries with
  | nil => intro st _ hwf; exact ⟨rfl, rfl, rfl, hwf⟩
  | cons e rest ih =>
    intro st hok hwf
    obtain ⟨st', nid, hsave, hstep⟩ := restoreStep_ok st (hok e (List.mem_cons_self e rest))
    have hwf' : VaultWF st' := vaultWF_save hwf hsave
    have hnidx : nid ∉ st.index := by
      intro hmem
      have := (hwf.2 nid).mp hmem
      rw [save_none_fresh hsave] at this
      cases this
    have hlen' : st'.index.length = st.index.length + 1 := by
      rw [save_shape hsave]
      exact addAccount_length hnidx
    obtain ⟨hr, hf, hlen, hwfout⟩ := ih st' (fun x hx => hok x (List.mem_cons_of_mem e hx)) hwf'
    refine ⟨?_, ?_, ?_, ?_⟩
    · simp only [restoreEntries, hstep, hr, List.length_cons]
      omega
    · simp only [restoreEntries, hstep, hf]
    · simp only [restoreEntries, hstep, List.length_cons]
      rw [hlen, hlen']
      omega
    · simpa [restoreEntries, hstep] using hwfout

theorem toInfo_mkData_toEntry {info : TokenInfo} (h1 : truthy info.account_name = true)
    (h2 : truthy info.secret_key = true) (h3 : truthy info.issuer_name = true)
    (id : String) :
    toInfo id (mkData ((toEntry info).account_name.getD "") ((toEntry info).issuer_name.getD "")
      ((toEntry info).secret_key.getD "") ((toEntry info).type.getD "TOTP") none) =
    { identifier := id
      account_name := info.account_name
      issuer_name := info.issuer_name
      secret_key := info.secret_key
      type := info.type
      recovery_codes := none } := by
  obtain ⟨ha, -⟩ := truthy_spec h1
  obtain ⟨hs, -⟩ := truthy_spec h2
  obtain ⟨hi, -⟩ := truthy_spec h3
  simp only [toInfo, mkData, toEntry, Option.getD_some]
  refine TokenInfo.mk.injEq .. ▸ ?_
  simp [ha.symm, hi.symm, hs.symm]

/-! ### C8 -/

/-- C8: on every outcome of the restore path other than a completed
restore — malformed envelope, cancelled password, decryption failure
(wrong password, truncation, tampering), empty plaintext, plaintext that
is not a list of record-shaped entries, or an empty token list — the
vault state is returned unchanged; saves happen only after full
successful decryption and parsing. -/
theorem restore_no_save_on_error {C : Type} (kdf : String → String → String)
    (dec : String → String → C → Option BackupPlain)
    (st : VaultState) (envOpt : Option (BackupEnvelope C)) (password : String) :
    (∃ r f, (restore_backup kdf dec st envOpt password).2 = RestoreOutcome.completed r f) ∨
    (restore_backup kdf dec st envOpt password).1 = st := by
  cases envOpt with
  | none => exact Or.inr rfl
  | some env =>
    rw [restore_backup]
    by_cases hpw : password = ""
    · rw [if_pos hpw]; exact Or.inr rfl
    · rw [if_neg hpw]
      cases dec (kdf password env.salt) env.nonce env.ciphertext with
      | none => exact Or.inr rfl
      | some p =>
        cases p with
        | emptyBytes => exact Or.inr rfl
        | notTokenList => exact Or.inr rfl
        | tokens entries =>
          cases entries with
          | nil => exact Or.inr rfl
          | cons e rest => exact Or.inl ⟨_, _, rfl⟩

/-! ### C1 -/

/-- C1 counterexample: exporting a vault whose single record carries
recovery codes "abc" and importing the result with the same password
yields a record set in which no record matches the original on all five
claimed fields — the restore path drops `recovery_codes`, so the claim
as stated fails. -/
theorem backup_round_trip_counterexample :
    ¬ (∀ info ∈ get_all_token_data stRecovery,
        ∃ info' ∈ get_all_token_data
          (restore_backup idKdf idDec emptyVault
            (some (export_backup idKdf idEnc stRecovery "pw" "s" "n")) "pw").1,
          info'.account_name = info.account_name ∧
          info'.issuer_name = info.issuer_name ∧
          info'.secret_key = info.secret_key ∧
          info'.type = info.type ∧
          info'.recovery_codes = info.recovery_codes) := by
  decide

/-- C1 amended: for every vault whose stored type fields pass save
validation and every cipher functioning as an AEAD (decrypt inverts
encrypt), importing the export with the same password yields, for each
exported record, a restored record agreeing on account_name,
issuer_name, secret_key and type; recovery_codes however is dropped by
the restore path (the restored record's observed recovery_codes is
`None`), because `_handle_restore_tokens` does not pass recovery codes
to `save_token_secret`. -/
theorem backup_round_trip_amended {C : Type} (kdf : String → String → String)
    (enc : String → String → BackupPlain → C)
    (dec : String → String → C → Option BackupPlain)
    (st st₂ : VaultState) (password salt nonce : String)
    (hrt : ∀ key n p, dec key n (enc key n p) = some p)
    (hpw : password ≠ "")
    (htype : ∀ p ∈ st.store, pyUpper (p.2.type.getD "TOTP") = "TOTP" ∨
      pyUpper (p.2.type.getD "TOTP") = "HOTP") :
    ∀ info ∈ get_all_token_data st,
      ∃ info' ∈ get_all_token_data
        (restore_backup kdf dec st₂
          (some (export_backup kdf enc st password salt nonce)) password).1,
        info'.account_name = info.account_name ∧
        info'.issuer_name = info.issuer_name ∧
        info'.secret_key = info.secret_key ∧
        info'.type = info.type ∧
        info'.recovery_codes = none := by
  intro info hinfo
  obtain ⟨h1t, h2t, h3t⟩ := mem_gatd_truthy hinfo
  have hval := mem_gatd_type_valid hinfo htype
  have hok : entryOk (toEntry info) := by
    refine ⟨h1t, h3t, h2t, ?_⟩
    simpa [toEntry] using hval
  have hmem : toEntry info ∈ (get_all_token_data st).map toEntry :=
    List.mem_map_of_mem toEntry hinfo
  cases hentries : (get_all_token_data st).map toEntry with
  | nil => rw [hentries] at hmem; cases hmem
  | cons e0 rest =>
    rw [hentries] at hmem
    have hres : (restore_backup kdf dec st₂
        (some (export_backup kdf enc st password salt nonce)) password).1 =
        (restoreEntries st₂ (e0 :: rest)).1 := by
      simp only [restore_backup, export_backup, if_neg hpw]
      rw [hrt, hentries]
    obtain ⟨id, hfree, hsome, hidx⟩ := restoreEntries_entry (e0 :: rest) st₂ (toEntry info) hmem hok
    rw [toInfo_mkData_toEntry h1t h2t h3t id] at hsome
    refine ⟨{ identifier := id
              account_name := info.account_name
              issuer_name := info.issuer_name
              secret_key := info.secret_key
              type := info.type
              recovery_codes := none }, ?_, rfl, rfl, rfl, rfl, rfl⟩
    rw [hres]
    exact gatd_mem_of hidx hsome h1t h2t h3t

/-- Witness for the amended C1: the vault `stRecovery` exported and
re-imported into an empty vault with the trivial cipher instance. -/
theorem backup_round_trip_amended_witness :
    ∃ info' ∈ get_all_token_data
        (restore_backup idKdf idDec emptyVault
          (some (export_backup idKdf idEnc stRecovery "pw" "s" "n")) "pw").1,
      info'.account_name = some "alice" ∧
      info'.issuer_name = some "Google" ∧
      info'.secret_key = some "SEC" ∧
      info'.type = "TOTP" ∧
      info'.recovery_codes = none :=
  backup_round_trip_amended idKdf idEnc idDec stRecovery emptyVault "pw" "s" "n"
    (fun _ _ _ => rfl) (by decide) (by decide)
    { identifier := "google_alice"
      account_name := some "alice"
      issuer_name := some "Google"
      secret_key := some "SEC"
      type := "TOTP"
      recovery_codes := some "abc" }
    (by decide)

/-! ### C9 -/

/-- C9: restoring a backup that decrypts to a list of well-formed token
entries into a well-formed vault is additive: the accounts-index length
grows by exactly the number of imported entries, every existing record
is still retrievable unchanged (nothing is overwritten), and each
imported entry lands at an identifier that had no record before the
restore — so a backup token duplicating an existing account+issuer
produces a second, distinct entry. -/
theorem restore_additive {C : Type} (kdf : String → String → String)
    (dec : String → String → C → Option BackupPlain)
    (st : VaultState) (env : BackupEnvelope C) (password : String)
    (entries : List BackupEntry)
    (hpw : password ≠ "")
    (hdec : dec (kdf password env.salt) env.nonce env.ciphertext =
      some (BackupPlain.tokens entries))
    (hok : ∀ e ∈ entries, entryOk e) (hwf : VaultWF st) :
    (restore_backup kdf dec st (some env) password).1.index.length =
      st.index.length + entries.length ∧
    (∀ x v, get_token_secret st x = some v →
      get_token_secret (restore_backup kdf dec st (some env) password).1 x = some v) ∧
    (∀ e ∈ entries, ∃ id, get_token_secret st id = none ∧
      (get_token_secret (restore_backup kdf dec st (some env) password).1 id).isSome = true) := by
  cases entries with
  | nil =>
    have hres : restore_backup kdf dec st (some env) password = (st, RestoreOutcome.noTokens) := by
      rw [restore_backup, if_neg hpw, hdec]
    rw [hres]
    exact ⟨by simp, fun x v hx => hx, fun e he => absurd he (List.not_mem_nil e)⟩
  | cons e0 rest =>
    have hres : (restore_backup kdf dec st (some env) password).1 =
        (restoreEntries st (e0 :: rest)).1 := by
      rw [restore_backup, if_neg hpw, hdec]
    obtain ⟨hr, hf, hlen, hwfout⟩ := restoreEntries_counts (e0 :: rest) st hok hwf
    refine ⟨by rw [hres]; exact hlen, ?_, ?_⟩
    · intro x v hx
      rw [hres]
      exact restoreEntries_preserves (e0 :: rest) st x v hx
    · intro e he
      obtain ⟨id, hfree, hsome, -⟩ := restoreEntries_entry (e0 :: rest) st e he (hok e he)
      refine ⟨id, hfree, ?_⟩
      rw [hres, hsome]
      rfl

/-- Witness for C9: a backup holding a second alice-at-Google token is
restored into the vault `stA`, which already holds alice at Google. -/
theorem restore_additive_witness :
    (restore_backup idKdf idDec stA (some envEx) "pw").1.index.length =
      stA.index.length + entriesEx.length ∧
    (∀ x v, get_token_secret stA x = some v →
      get_token_secret (restore_backup idKdf idDec stA (some envEx) "pw").1 x = some v) ∧
    (∀ e ∈ entriesEx, ∃ id, get_token_secret stA id = none ∧
      (get_token_secret (restore_backup idKdf idDec stA (some envEx) "pw").1 id).isSome = true) :=
  restore_additive idKdf idDec stA envEx "pw" entriesEx (by decide) rfl (by decide)
    (by
      have h := applyOps_wf [VaultOp.saveOp "alice" "Google" "SEC" "TOTP" none none]
        emptyVault vaultWF_empty
      have heq : applyOps emptyVault
          [VaultOp.saveOp "alice" "Google" "SEC" "TOTP" none none] = stA := by decide
      rw [heq] at h
      exact h)

end TwoFA
